import Mathlib

/-!
Shallow embedding of the RedFish metadata store (`src/mds/mstor.c`) over a
model of the leveldb ordered key-value engine, together with theorems that
settle the claims about its specification.

Modelling conventions:
* Keys and values are byte lists (`List Nat`, each element a byte value);
  the engine is a list of (key, value) entries kept sorted in memcmp order,
  mirroring leveldb's bytewise comparator.
* Multi-byte integers are packed with `be16`/`be32`/`be64` (big-endian),
  matching `pack_to_be*` in `util/packed.h`; `unpackBe` matches
  `unpack_from_be*`.
* Constants that live in headers not present under `src/` (mds/limits.h,
  mds/mstor.h, jorm) are modelled from the spec and marked as such.
* Error returns are C-style negative errno values carried in `Except Int`.
-/

deriving instance DecidableEq for Except

namespace Mstor

/-! ## Byte packing (util/packed.h) -/

/-- Big-endian byte list of width `w` bytes for value `n` (low `8*w` bits),
as written by `pack_to_be16/32/64`: most significant byte first. -/
def beBytes : Nat → Nat → List Nat
  | 0, _ => []
  | w + 1, n => beBytes w (n / 256) ++ [n % 256]

def be16 (n : Nat) : List Nat := beBytes 2 n
def be32 (n : Nat) : List Nat := beBytes 4 n
def be64 (n : Nat) : List Nat := beBytes 8 n

/-- Big-endian decode, as `unpack_from_be16/32/64` (over the given bytes). -/
def unpackBe (l : List Nat) : Nat :=
  l.foldl (fun acc b => acc * 256 + b) 0

/-! ## memcmp order on byte lists (leveldb's bytewise comparator) -/

/-- `keyLtB a b` is true when `a` sorts strictly before `b` in leveldb's
bytewise (memcmp-style) order: shorter strict-prefix first. -/
def keyLtB : List Nat → List Nat → Bool
  | [], [] => false
  | [], _ :: _ => true
  | _ :: _, [] => false
  | a :: as, b :: bs =>
    if a < b then true
    else if b < a then false
    else keyLtB as bs

/-! ## The ordered key-value engine (Backing Store Adapter) -/

/-- One stored record: (key bytes, value bytes). -/
abbrev Entry : Type := List Nat × List Nat

/-- The engine state: entries sorted strictly ascending by `keyLtB`. -/
abbrev Store : Type := List Entry

/-- Point read (`leveldb_get`): the value stored at exactly this key. -/
def ldbGet : Store → List Nat → Option (List Nat)
  | [], _ => none
  | e :: t, k => if e.1 = k then some e.2 else ldbGet t k

/-- Point write (`leveldb_put`): sorted insert, replacing an equal key. -/
def sput : Store → List Nat → List Nat → Store
  | [], k, v => [(k, v)]
  | e :: t, k, v =>
    if keyLtB k e.1 then (k, v) :: e :: t
    else if e.1 = k then (k, v) :: t
    else e :: sput t k v

/-- Point delete: removes the entry with this key, if present. -/
def sdel : Store → List Nat → Store
  | [], _ => []
  | e :: t, k => if e.1 = k then t else e :: sdel t k

/-- One operation of a `leveldb_writebatch_t`. -/
inductive BatOp : Type
  | bput (k v : List Nat) : BatOp
  | bdel (k : List Nat) : BatOp
  deriving DecidableEq

/-- `leveldb_write`: apply a batch atomically, in order. -/
def applyBatch (s : Store) (ops : List BatOp) : Store :=
  ops.foldl
    (fun st op =>
      match op with
      | BatOp.bput k v => sput st k v
      | BatOp.bdel k => sdel st k) s

/-- `leveldb_iter_seek`: index of the first entry whose key is not below
the target (list length when the iterator lands past the end). -/
def seekIdx (s : Store) (k : List Nat) : Nat :=
  s.findIdx (fun e => ! keyLtB e.1 k)

/-- Iterator position after a seek: `none` is an invalid iterator. -/
def seekPos (s : Store) (k : List Nat) : Option Nat :=
  if seekIdx s k < s.length then some (seekIdx s k) else none

/-- `leveldb_iter_prev`.  leveldb forbids stepping an invalid iterator;
the embedded code only steps back right after a seek that is guaranteed to
land on an existing entry (the version record sorts after every key the
code seeks to), so the `none` case is unreachable there and is mapped to
an invalid iterator. -/
def prevPos : Option Nat → Option Nat
  | none => none
  | some 0 => none
  | some (i + 1) => some i

/-- Entry at an iterator position (`leveldb_iter_key` / `_value`). -/
def entryAt (s : Store) (i : Nat) : Entry :=
  s.getD i ([], [])

/-! ## Constants (mstor.c, and spec-modelled header constants) -/

def MSTOR_PERM_EXEC : Nat := 0o1
def MSTOR_PERM_WRITE : Nat := 0o2
def MSTOR_PERM_READ : Nat := 0o4

/-- Modelled from the spec: `MNODE_IS_DIR` lives in `mds/mstor.h`, absent
from `src/`; the spec says the high bit region of the 16-bit mode-and-type
field carries a single `IS_DIR` flag beside the low 9 permission bits. -/
def MNODE_IS_DIR : Nat := 0x8000

/-- Modelled from the spec: the fixed superuser uid (`mds/limits.h`). -/
def RF_SUPERUSER_UID : Nat := 0

/-- Modelled from the spec: the fixed superuser gid (`mds/limits.h`). -/
def RF_SUPERUSER_GID : Nat := 0

/-- Modelled from the spec: path-component maximum (`mds/limits.h`).  The
claims never depend on its exact value, only that names stay below it. -/
def RF_PCOMP_MAX : Nat := 256

/-- Modelled from the spec: sentinel "do not set" time value
(`RF_INVAL_TIME`, header absent from `src/`). -/
def RF_INVAL_TIME : Nat := 2 ^ 64 - 1

def MSTOR_NID_MAX : Nat := 0xffffffffffff0000
def MSTOR_CID_MAX : Nat := 0xffffffffffff0000
def MSTOR_ROOT_NID : Nat := 0
def MSTOR_CUR_VERSION : Nat := 1

/-- `0755 | MNODE_IS_DIR`. -/
def MSTOR_ROOT_NID_INIT_MODE : Nat := 0o755 ||| MNODE_IS_DIR

/-- Size of the packed `struct mnode_payload`:
mtime u64, atime u64, length u64, uid u32, gid u32, mode_and_type u16. -/
def PAYLOAD_LEN : Nat := 34

def EPERM : Int := 1
def ENOENT : Int := 2
def EIO : Int := 5
def EFAULT : Int := 14
def EEXIST : Int := 17
def ENOTDIR : Int := 20
def EISDIR : Int := 21
def EINVAL : Int := 22
def ENOMEM : Int := 12
def ENAMETOOLONG : Int := 36
def ENOSYS : Int := 38
def ENOTEMPTY : Int := 39
def EOVERFLOW : Int := 75

/-! ## Node payloads -/

/-- Build the 34 packed bytes of a `struct mnode_payload` from its fields,
in declaration order, each big-endian (`pack_to_be*` into the struct). -/
def encPayload (mtime atime length uid gid modeAndType : Nat) : List Nat :=
  be64 mtime ++ be64 atime ++ be64 length ++ be32 uid ++ be32 gid ++
    be16 modeAndType

/-- `unpack_from_be16(&hdr->mode_and_type)`: bytes 32..33. -/
def pModeAndType (val : List Nat) : Nat := unpackBe ((val.drop 32).take 2)

/-- `unpack_from_be32(&hdr->uid)`: bytes 24..27. -/
def pUid (val : List Nat) : Nat := unpackBe ((val.drop 24).take 4)

/-- `unpack_from_be32(&hdr->gid)`: bytes 28..31. -/
def pGid (val : List Nat) : Nat := unpackBe ((val.drop 28).take 4)

/-- `unpack_from_be64(&hdr->mtime)`: bytes 0..7. -/
def pMtime (val : List Nat) : Nat := unpackBe (val.take 8)

/-- `unpack_from_be64(&hdr->atime)`: bytes 8..15. -/
def pAtime (val : List Nat) : Nat := unpackBe ((val.drop 8).take 8)

/-- Overwrite bytes 0..7 with a packed mtime (`pack_to_be64(&hdr->mtime)`)
in place. -/
def setMtime (val : List Nat) (t : Nat) : List Nat :=
  be64 t ++ val.drop 8

/-- Overwrite bytes 8..15 with a packed atime in place. -/
def setAtime (val : List Nat) (t : Nat) : List Nat :=
  val.take 8 ++ be64 t ++ val.drop 16

/-- Overwrite bytes 32..33 with a packed mode-and-type in place. -/
def setModeAndType (val : List Nat) (m : Nat) : List Nat :=
  val.take 32 ++ be16 m

/-! ## Users (mds/user.h is not under src/) -/

/-- Modelled from the spec: the user-directory collaborator resolves a
request's user to a uid, a primary gid and a group membership set;
`user_in_gid(user, gid)` tests membership. -/
structure RUser : Type where
  uid : Nat
  gid : Nat
  gids : List Nat
  deriving DecidableEq

/-- Modelled from the spec: `user_in_gid`. -/
def user_in_gid (u : RUser) (g : Nat) : Bool := u.gids.contains g

/-! ## Keys (leveldb storage scheme, mstor.c lines 41-52) -/

/-- Node key: `'n'` (0x6e) followed by the big-endian nid. -/
def nKey (nid : Nat) : List Nat := 110 :: be64 nid

/-- Child-key prefix: `'c'` (0x63) followed by the big-endian parent nid. -/
def cKeyPfx (nid : Nat) : List Nat := 99 :: be64 nid

/-- Child key: prefix plus the name bytes.  The C code copies the name
with `snprintf(..., RF_PCOMP_MAX, "%s", pcomp)`, which truncates it to
`RF_PCOMP_MAX - 1` bytes. -/
def cKey (pnid : Nat) (name : List Nat) : List Nat :=
  cKeyPfx pnid ++ name.take (RF_PCOMP_MAX - 1)

/-- File-chunk key prefix: `'f'` (0x66) followed by the big-endian nid. -/
def fKeyPfx (nid : Nat) : List Nat := 102 :: be64 nid

/-- File-chunk key: prefix plus the big-endian start offset. -/
def fKey (nid off : Nat) : List Nat := fKeyPfx nid ++ be64 off

/-- Chunk-replicas key: `'h'` (0x68) followed by the big-endian cid. -/
def hKey (cid : Nat) : List Nat := 104 :: be64 cid

/-- Version key: the single byte `'v'` (0x76). -/
def vKey : List Nat := [118]

/-- Version value: magic `"Fish"` then the 4-byte big-endian version. -/
def vVal : List Nat := [70, 105, 115, 104] ++ be32 MSTOR_CUR_VERSION

/-! ## In-memory node handles and store state -/

/-- `struct mnode`: a nid paired with its payload pointer (`none` models a
NULL `val`, as after `memset(&node, 0, sizeof(node))`). -/
structure MNode : Type where
  nid : Nat
  val : Option (List Nat)
  deriving DecidableEq

/-- The mutable parts of `struct mstor` the claims reason about: the
database and the two id counters. -/
structure MStorSt : Type where
  db : Store
  nextNid : Nat
  nextCid : Nat
  deriving DecidableEq

/-- Marker for the C `abort()` path (id-space exhaustion); not an errno. -/
def ABORTED : Int := 1000

/-- `mstor_next_nid`: fetch-and-add on the counter; aborts past the
ceiling. -/
def mstor_next_nid (m : MStorSt) : Except Int (Nat × MStorSt) :=
  if MSTOR_NID_MAX < m.nextNid then Except.error (-ABORTED)
  else Except.ok (m.nextNid, ⟨m.db, m.nextNid + 1, m.nextCid⟩)

/-- `mstor_next_cid`: fetch-and-add on the chunk-id counter. -/
def mstor_next_cid (m : MStorSt) : Except Int (Nat × MStorSt) :=
  if MSTOR_NID_MAX < m.nextCid then Except.error (-ABORTED)
  else Except.ok (m.nextCid, ⟨m.db, m.nextNid, m.nextCid + 1⟩)

/-! ## Permission checker (`mstor_mode_check`) -/

/-- `mstor_mode_check` from mstor.c, lines 466-506, on a node's payload
bytes.  `cp` is the `MREQ_FLAG_CHECK_PERMS` bit of `mreq->flags` (the only
flag).  Returns 0 (grant) or a negative errno.  Note the shifts: the
unconditional test is `(want << 6) & mode`, the uid-gated test is
`want & mode`, the gid-gated test is `(want << 3) & mode`. -/
def mstor_mode_check (val : List Nat) (cp : Bool) (u : RUser) (want : Nat) :
    Int :=
  let mode := pModeAndType val
  if want &&& MNODE_IS_DIR ≠ 0 ∧ mode &&& MNODE_IS_DIR = 0 then -ENOTDIR
  else if want &&& MNODE_IS_DIR = 0 ∧ mode &&& MNODE_IS_DIR ≠ 0 then -EISDIR
  else if cp = false then 0
  else
    -- mode &= ~MNODE_IS_DIR; want &= ~MNODE_IS_DIR (clear bit 15)
    let mode2 := mode &&& 0x7fff
    let want2 := want &&& 0x7fff
    if (want2 <<< 6) &&& mode2 ≠ 0 then 0
    else if u.uid = pUid val ∧ want2 &&& mode2 ≠ 0 then 0
    else if user_in_gid u (pGid val) ∧ (want2 <<< 3) &&& mode2 ≠ 0 then 0
    else -EPERM

/-- Dereference a node handle's payload pointer; a NULL dereference would
crash the C program and is modelled as `-EFAULT` (unreachable at every
call site the claims exercise). -/
def nodeVal (n : MNode) : Except Int (List Nat) :=
  match n.val with
  | none => Except.error (-EFAULT)
  | some v => Except.ok v

/-- `mstor_mode_check` applied to a node handle; dereferencing a NULL
payload would crash the C program and is modelled as `-EFAULT`
(unreachable at every call site the claims exercise). -/
def modeCheckNode (n : MNode) (cp : Bool) (u : RUser) (want : Nat) : Int :=
  match n.val with
  | none => -EFAULT
  | some v => mstor_mode_check v cp u want

/-- Lift a C-style `ret` (0 or negative errno) into `Except`. -/
def checkRet (r : Int) : Except Int Unit :=
  if r = 0 then Except.ok () else Except.error r

/-! ## Node fetch / creation -/

/-- `mstor_fetch_node` (lines 650-681): read and validate `n|nid`. -/
def mstor_fetch_node (s : Store) (nid : Nat) : Except Int MNode :=
  match ldbGet s (nKey nid) with
  | none => Except.error (-ENOENT)
  | some v =>
    if v.length ≠ PAYLOAD_LEN then Except.error (- EIO)
    else Except.ok ⟨nid, some v⟩

/-- `mstor_fetch_child` (lines 683-726): exec-check the parent, read the
child record, then fetch the child node. -/
def mstor_fetch_child (s : Store) (cp : Bool) (u : RUser) (pcomp : List Nat)
    (pnode : MNode) : Except Int MNode := do
  checkRet (modeCheckNode pnode cp u (MSTOR_PERM_EXEC ||| MNODE_IS_DIR))
  match ldbGet s (cKey pnode.nid pcomp) with
  | none => Except.error (-ENOENT)
  | some v =>
    if v.length ≠ 8 then Except.error (- EIO)
    else mstor_fetch_node s (unpackBe v)

/-- `mstor_make_node` (lines 728-789): allocate a nid, build a zeroed
payload with the given fields (length stays 0 from `calloc`), then write
the child record and the node record in one batch. -/
def mstor_make_node (m : MStorSt) (modeAndType mtime atime uid gid : Nat)
    (pcomp : List Nat) (pnode : MNode) : Except Int (MStorSt × MNode) := do
  let r ← mstor_next_nid m
  let cnid := r.1
  let m1 := r.2
  if cnid = MSTOR_NID_MAX then Except.error (-EOVERFLOW)
  else
    let body := encPayload mtime atime 0 uid gid modeAndType
    let bat : List BatOp :=
      [BatOp.bput (cKey pnode.nid pcomp) (be64 cnid),
       BatOp.bput (nKey cnid) body]
    Except.ok (⟨applyBatch m1.db bat, m1.nextNid, m1.nextCid⟩,
      ⟨cnid, some body⟩)

/-! ## Operation handlers -/

/-- `mstor_do_creat` (lines 791-807): write-check the parent directory,
then create a file node with the request's mode and ctime. -/
def mstor_do_creat (m : MStorSt) (cp : Bool) (u : RUser) (mode ctime : Nat)
    (pcomp : List Nat) (pnode : MNode) : Except Int (MStorSt × MNode) := do
  checkRet (modeCheckNode pnode cp u (MSTOR_PERM_WRITE ||| MNODE_IS_DIR))
  mstor_make_node m mode ctime ctime u.uid u.gid pcomp pnode

/-- `mstor_do_mkdir` (lines 1023-1038): write-check the parent, then
create a directory node (`mode | MNODE_IS_DIR`). -/
def mstor_do_mkdir (m : MStorSt) (cp : Bool) (u : RUser) (mode ctime : Nat)
    (pcomp : List Nat) (pnode : MNode) : Except Int (MStorSt × MNode) := do
  checkRet (modeCheckNode pnode cp u (MSTOR_PERM_WRITE ||| MNODE_IS_DIR))
  mstor_make_node m (mode ||| MNODE_IS_DIR) ctime ctime u.uid u.gid pcomp
    pnode

/-- The mode-and-type value `mstor_do_chmod` installs: the request's mode
with the stored `IS_DIR` bit carried over (`|=` when the old value has it,
`&= ~MNODE_IS_DIR` otherwise). -/
def chmodNewType (pv : List Nat) (mode : Nat) : Nat :=
  if pModeAndType pv &&& MNODE_IS_DIR ≠ 0 then mode ||| MNODE_IS_DIR
  else mode &&& 0x7fff

/-- `mstor_do_chmod` (lines 1202-1237): no permission check on the target;
install the request's mode, preserving the stored `IS_DIR` bit, and
rewrite the node with a single put. -/
def mstor_do_chmod (m : MStorSt) (mode : Nat) (node : MNode) :
    Except Int MStorSt := do
  let pv ← nodeVal node
  Except.ok ⟨sput m.db (nKey node.nid) (setModeAndType pv
    (chmodNewType pv mode)), m.nextNid, m.nextCid⟩

/-- The payload `mstor_do_utimes` writes back: atime overwritten first,
then mtime, each only when it is not the `RF_INVAL_TIME` sentinel. -/
def utimesNewPayload (pv : List Nat) (patime pmtime : Nat) : List Nat :=
  let pv1 := if patime ≠ RF_INVAL_TIME then setAtime pv patime else pv
  if pmtime ≠ RF_INVAL_TIME then setMtime pv1 pmtime else pv1

/-- `mstor_do_utimes` (lines 1302-1333): no permission check on the
target; overwrite the non-sentinel times and rewrite the node with a
single put. -/
def mstor_do_utimes (m : MStorSt) (patime pmtime : Nat) (node : MNode) :
    Except Int MStorSt := do
  let pv ← nodeVal node
  Except.ok ⟨sput m.db (nKey node.nid) (utimesNewPayload pv patime pmtime),
    m.nextNid, m.nextCid⟩

/-! ## rmdir -/

/-- `leveldb_delete_node` (lines 1335-1351): batch a delete of the child
record under `pnode` named `pcomp` and a delete of `cnode`'s node record. -/
def leveldb_delete_node (pcomp : List Nat) (pnode cnode : MNode) :
    List BatOp :=
  [BatOp.bdel (cKey pnode.nid pcomp), BatOp.bdel (nKey cnode.nid)]

/-- The child-scanning loop of `mstor_do_rmdir` (lines 1394-1448) over the
entries from the seek position on: stop at the first key outside the
`c|cnid` range; a child found without `rmr` is `-ENOTEMPTY`; with `rmr`,
write-check each child and batch its deletion.  Node fetches read the
store as it was when the iterator was created (`s`). -/
def rmdirScan (s : Store) (cp : Bool) (u : RUser) (rmr : Bool) (cnid : Nat) :
    List Entry → List BatOp → Except Int (List BatOp)
  | [], acc => Except.ok acc
  | (k, v) :: rest, acc =>
    if k.length < 1 then Except.error (- EIO)
    else if k.headD 0 ≠ 99 then Except.ok acc
    else if k.length ≤ 9 then Except.error (- EIO)
    else if unpackBe ((k.drop 1).take 8) ≠ cnid then Except.ok acc
    else if v.length ≠ 8 then Except.error (- EIO)
    else if RF_PCOMP_MAX ≤ k.length - 9 then Except.error (- EIO)
    else if rmr = false then Except.error (-ENOTEMPTY)
    else do
      let node ← mstor_fetch_node s (unpackBe v)
      checkRet (modeCheckNode node cp u MSTOR_PERM_WRITE)
      rmdirScan s cp u rmr cnid rest
        (acc ++ leveldb_delete_node (k.drop 9) ⟨cnid, none⟩ node)

/-- `mstor_do_rmdir` (lines 1353-1467): refuse when `pnode` has no
payload ("you can't delete the root inode"), write-check `pnode`, scan the
children of `cnode.nid`, then batch `leveldb_delete_node(pcomp, pnode,
cnode)` and apply everything as one atomic write. -/
def mstor_do_rmdir (m : MStorSt) (cp : Bool) (u : RUser) (rmr : Bool)
    (pcomp : List Nat) (pnode cnode : MNode) : Except Int MStorSt :=
  match pnode.val with
  | none => Except.error (-EPERM)
  | some _ => do
    checkRet (modeCheckNode pnode cp u (MSTOR_PERM_WRITE ||| MNODE_IS_DIR))
    let ops ← rmdirScan m.db cp u rmr cnode.nid
      (m.db.drop (seekIdx m.db (cKeyPfx cnode.nid))) []
    Except.ok ⟨applyBatch m.db (ops ++ leveldb_delete_node pcomp pnode cnode),
      m.nextNid, m.nextCid⟩

/-! ## chunkfind / chunkalloc -/

/-- The emission loop of `mstor_chunkfind_impl` (lines 890-917).  Each
iteration first applies the capacity test `num_cinfos + 1 >= max_cinfos`,
then validates the value length, emits `(cid, start)`, and advances; it
stops at the first key outside the file or past `endOff`. -/
def chunkfindLoop (maxC endOff : Nat) (pfx : List Nat) :
    Entry → Nat → List Entry → List (Nat × Nat) →
    Except Int (List (Nat × Nat))
  | cur, base, rest, acc =>
    if maxC ≤ acc.length + 1 then Except.ok acc
    else if cur.2.length ≠ 8 then Except.error (- EIO)
    else
      let acc2 := acc ++ [(unpackBe cur.2, base)]
      match rest with
      | [] => Except.ok acc2
      | (k, v) :: rest2 =>
        if k.length ≠ 17 ∨ k.take 9 ≠ pfx then Except.ok acc2
        else
          let base2 := unpackBe (k.drop 9)
          if endOff < base2 then Except.ok acc2
          else chunkfindLoop maxC endOff pfx (k, v) base2 rest2 acc2

/-- `mstor_chunkfind_impl` (lines 845-923): seek to `f|nid|start+1`
(uint64 arithmetic on `start + 1`), step back once, and if the landing key
is still a 17-byte key of the same file, run the emission loop.  Returns
the emitted `(cid, start)` pairs (the C function fills the caller's array
and returns their count). -/
def mstor_chunkfind_impl (s : Store) (nid maxC start endOff : Nat) :
    Except Int (List (Nat × Nat)) :=
  match prevPos (seekPos s (fKey nid ((start + 1) % 2 ^ 64))) with
  | none => Except.ok []
  | some i =>
    let k := (entryAt s i).1
    if k.length ≠ 17 ∨ k.take 9 ≠ fKeyPfx nid then Except.ok []
    else chunkfindLoop maxC endOff (fKeyPfx nid) (entryAt s i)
      (unpackBe (k.drop 9)) (s.drop (i + 1)) []

/-- Little-endian byte list of width `w`: the raw in-memory bytes of an
unsigned integer on the little-endian targets this code builds for (the
spec's §9 note on `chunkalloc` presupposes a host whose byte order is not
big-endian): least significant byte first. -/
def leBytes : Nat → Nat → List Nat
  | 0, _ => []
  | w + 1, n => n % 256 :: leBytes w (n / 256)

/-- `mstor_do_chunkalloc` (lines 953-1021): fetch and write-check the file
node, probe `chunkfind` with a capacity-1 array at `[off, off]` and fail
with `-EINVAL` when it reports a chunk, then allocate a cid and batch the
file-chunk record (value: the raw `&cid` bytes, host order) and the
chunk-replicas record (value: the raw `oids` array bytes, host order,
stub replicas 123 and 456). -/
def mstor_do_chunkalloc (m : MStorSt) (cp : Bool) (u : RUser)
    (nid off : Nat) : Except Int (MStorSt × Nat) := do
  let node ← mstor_fetch_node m.db nid
  checkRet (modeCheckNode node cp u MSTOR_PERM_WRITE)
  let found ← mstor_chunkfind_impl m.db nid 1 off off
  if found.length ≠ 0 then Except.error (-EINVAL)
  else do
    let r ← mstor_next_cid m
    let cid := r.1
    let m1 := r.2
    let bat : List BatOp :=
      [BatOp.bput (fKey nid off) (leBytes 8 cid),
       BatOp.bput (hKey cid) (leBytes 4 123 ++ leBytes 4 456)]
    Except.ok (⟨applyBatch m1.db bat, m1.nextNid, m1.nextCid⟩, cid)

/-! ## Bootstrap and recovery -/

/-- `mstor_leveldb_create_new` (lines 318-358): on an empty engine, write
the version record and the root node (mode `0755 | IS_DIR`, superuser
uid/gid, mtime = atime = `t`, length 0). -/
def mstor_leveldb_create_new (t : Nat) : Store :=
  sput (sput [] vKey vVal) (nKey MSTOR_ROOT_NID)
    (encPayload t t 0 RF_SUPERUSER_UID RF_SUPERUSER_GID
      MSTOR_ROOT_NID_INIT_MODE)

/-- The freshly formatted store state: `create_new` sets `next_nid` to
`MSTOR_ROOT_NID + 1`; `next_cid` keeps its `calloc` value 0 (the create
path never initializes it). -/
def mstor_init_fresh (t : Nat) : MStorSt :=
  ⟨mstor_leveldb_create_new t, MSTOR_ROOT_NID + 1, 0⟩

/-- `mstor_load_next_nid` (lines 368-391): seek to `n|MSTOR_NID_MAX`, step
back once; the landing key must be a 9-byte `'n'` key, and the recovered
counter is its nid plus one. -/
def mstor_load_next_nid (s : Store) : Except Int Nat :=
  match prevPos (seekPos s (nKey MSTOR_NID_MAX)) with
  | none => Except.error (-EINVAL)
  | some i =>
    let k := (entryAt s i).1
    if k.length ≠ 9 ∨ k.headD 0 ≠ 110 then Except.error (-EINVAL)
    else Except.ok (unpackBe (k.drop 1) + 1)

/-- `mstor_load_next_cid` (lines 401-422): same technique on the `'h'`
family, defaulting to 1 when the landing key is not a 9-byte `'h'` key. -/
def mstor_load_next_cid (s : Store) : Nat :=
  match prevPos (seekPos s (hKey MSTOR_CID_MAX)) with
  | none => 1
  | some i =>
    let k := (entryAt s i).1
    if k.length ≠ 9 ∨ k.headD 0 ≠ 104 then 1
    else unpackBe (k.drop 1) + 1

/-- `mstor_parse_version` (lines 222-238): an 8-byte body starting with
the magic `"Fish"`; anything else is `MSTOR_VERSION_INVAL`. -/
def mstor_parse_version (v : List Nat) : Nat :=
  if v.length ≠ 8 then 0xffffffff
  else if v.take 4 ≠ [70, 105, 115, 104] then 0xffffffff
  else unpackBe ((v.drop 4).take 4)

/-- `mstor_leveldb_load` (lines 424-464): verify the version record, then
recover both counters (an unreadable or foreign version is `-EINVAL`,
which also covers `MSTOR_VERSION_INVAL`). -/
def mstor_leveldb_load (s : Store) : Except Int MStorSt := do
  if mstor_parse_version ((ldbGet s vKey).getD []) ≠ MSTOR_CUR_VERSION then
    Except.error (-EINVAL)
  else do
    let nn ← mstor_load_next_nid s
    Except.ok ⟨s, nn, mstor_load_next_cid s⟩

/-! ## Replication settings (`get_valid_repl`, `mstor_leveldb_init`) -/

/-- Modelled from the spec: `JORM_INVAL_INT`, the configuration sentinel
for an unset integer option (`jorm/jorm_const.h`, absent from `src/`). -/
def JORM_INVAL_INT : Int := -1

/-- Modelled from the spec: `RF_MAX_OID` (`mds/limits.h`), the value the
spec calls `MAX_REPLICAS` when describing the clamp. -/
def RF_MAX_OID : Int := 7

/-- `get_valid_repl` (lines 508-517). -/
def get_valid_repl (confRepl defRepl : Int) : Int :=
  if confRepl = JORM_INVAL_INT then defRepl
  else if confRepl < 1 then defRepl
  else if RF_MAX_OID < confRepl then RF_MAX_OID
  else confRepl

/-- The replication fields of `struct mstorc` (the configuration record). -/
structure MstorConf : Type where
  minRepl : Int
  manRepl : Int

/-- The repl computation of `mstor_leveldb_init` (lines 565-568): the
arguments passed to `get_valid_repl` are `mstor->min_repl` and
`mstor->man_repl`, fields of the `calloc`-zeroed store object — not the
configuration record `conf` — so they are always 0 at this point.  The
result is the pair (effective `min_repl`, effective `man_repl`). -/
def mstor_leveldb_init_repl (_conf : MstorConf) : Int × Int :=
  let storeMinRepl : Int := 0
  let storeManRepl : Int := 0
  (get_valid_repl storeMinRepl 2, get_valid_repl storeManRepl 3)

/-! ## The path walker (`mstor_do_path_operation`) -/

/-- The operations the claims exercise.  `open`, `listdir`, `stat` and
`chown` are dispatched the same way by the walker but are not referenced
by any claim; `chunkalloc` bypasses the walker; the sequester operations
and `rename` are `-ENOTSUP`. -/
inductive MOp : Type
  | creat (mode ctime : Nat) : MOp
  | mkdirs (mode ctime : Nat) : MOp
  | chmod (mode : Nat) : MOp
  | utimes (atime mtime : Nat) : MOp
  | rmdir (rmr : Bool) : MOp

/-- The terminal `switch (mreq->op)` of `mstor_do_path_operation`
(lines 1552-1585).  Note the rmdir dispatch (line 1573): the call is
`mstor_do_rmdir(mstor, mreq, pcomp, cnode, pnode)`, so the walker's
`cnode` arrives in `mstor_do_rmdir`'s `pnode` parameter and vice versa. -/
def mstor_dispatch (m : MStorSt) (cp : Bool) (u : RUser) (op : MOp)
    (pcomp : List Nat) (pnode cnode : MNode) : Except Int MStorSt :=
  match op with
  | MOp.creat _ _ => Except.error (-EEXIST)
  | MOp.mkdirs _ _ => Except.ok m
  | MOp.chmod mode => mstor_do_chmod m mode cnode
  | MOp.utimes a mt => mstor_do_utimes m a mt cnode
  | MOp.rmdir rmr => mstor_do_rmdir m cp u rmr pcomp cnode pnode

/-- The descent loop of `mstor_do_path_operation` (lines 1510-1551) and
the final dispatch.  Arguments after `op`: current state, the
`CHECK_PERMS` bit, the previous and current nodes, the most recent path
component (`""` when none was consumed), and the remaining components.
On `-ENOENT`, `creat` handles only a terminal miss and `mkdirs` creates
the missing directory and clears `CHECK_PERMS` for the rest of the walk. -/
def mstor_walk (u : RUser) (op : MOp) :
    MStorSt → Bool → MNode → MNode → List Nat → List (List Nat) →
    Except Int MStorSt
  | m, cp, pnode, cnode, pcomp, [] => mstor_dispatch m cp u op pcomp pnode cnode
  | m, cp, _, cnode, _, c :: rest =>
    match mstor_fetch_child m.db cp u c cnode with
    | Except.ok cn => mstor_walk u op m cp cnode cn c rest
    | Except.error e =>
      if e = -ENOENT then
        match op with
        | MOp.creat mode ctime =>
          if rest ≠ [] then Except.error e
          else do
            let r ← mstor_do_creat m cp u mode ctime c cnode
            Except.ok r.1
        | MOp.mkdirs mode ctime => do
          let r ← mstor_do_mkdir m cp u mode ctime c cnode
          mstor_walk u op r.1 false cnode r.2 c rest
        | _ => Except.error e
      else Except.error e

/-- `mstor_do_path_operation` (lines 1469-1588) on the canonicalized,
slash-split component list (the root path is `[]`; `canonicalize_path`
lives in `util/path.c`, outside `src/`, and a canonical path is consumed
here exactly as that split).  Sets `CHECK_PERMS` unless the requesting
user is the superuser, fetches the root (failure: `-ENOSYS`), and walks. -/
def mstor_do_path_operation (m : MStorSt) (u : RUser) (op : MOp)
    (comps : List (List Nat)) : Except Int MStorSt :=
  let cp := decide (u.uid ≠ RF_SUPERUSER_UID)
  match mstor_fetch_node m.db MSTOR_ROOT_NID with
  | Except.error _ => Except.error (-ENOSYS)
  | Except.ok root => mstor_walk u op m cp ⟨0, none⟩ root [] comps

/-- The read-only skeleton of the walker: successive `mstor_fetch_child`
steps from a starting node.  Used to phrase "every component of the path
exists and is traversable by this request". -/
def walkChain (s : Store) (cp : Bool) (u : RUser) :
    MNode → List (List Nat) → Except Int MNode
  | n, [] => Except.ok n
  | n, c :: rest =>
    match mstor_fetch_child s cp u c n with
    | Except.ok cn => walkChain s cp u cn rest
    | Except.error e => Except.error e

/-! ## Block encodings of a store, and the qualifying-chunk list -/

/-- The file-chunk records of file `nid` holding chunks `F` (each a
(start-offset, stored-cid) pair with the cid value packed big-endian). -/
def fEnc (nid : Nat) (F : List (Nat × Nat)) : Store :=
  F.map (fun p => (fKey nid p.1, be64 p.2))

/-- A block of node records: (nid, payload) pairs. -/
def nEnc (N : List (Nat × List Nat)) : Store :=
  N.map (fun p => (nKey p.1, p.2))

/-- A block of chunk-replicas records: (cid, payload) pairs. -/
def hEnc (H : List (Nat × List Nat)) : Store :=
  H.map (fun p => (hKey p.1, p.2))

/-- A store in its sorted five-block shape: child records, file-chunk
records, chunk-replicas records, node records, then the version record
(family tags: 'c' 0x63 < 'f' 0x66 < 'h' 0x68 < 'n' 0x6e < 'v' 0x76). -/
def storeBlocks (Cb Fb : Store) (H N : List (Nat × List Nat))
    (vv : List Nat) : Store :=
  Cb ++ Fb ++ hEnc H ++ nEnc N ++ [(vKey, vv)]

/-- The chunks of a file (sorted by start offset) that a
`chunkfind(start, end)` query asks for, following the spec: the chunk
whose start covers `start` (the last one with offset at most `start`),
and every later chunk with start offset at most `endOff`; none when no
chunk covers `start`. -/
def qualifyingChunks (F : List (Nat × Nat)) (start endOff : Nat) :
    List (Nat × Nat) :=
  match (F.filter (fun p => p.1 ≤ start)).getLast? with
  | none => []
  | some lo => F.filter (fun p => lo.1 ≤ p.1 ∧ p.1 ≤ endOff)

/-! ## Concrete fixtures used by the claim theorems and witnesses -/

/-- The user directory's superuser. -/
def uSuper : RUser := ⟨0, 0, []⟩

/-- The freshly formatted store (format time 100). -/
def st0 : MStorSt := mstor_init_fresh 100

/-- `st0` after `mkdirs("/a", mode 0755, ctime 100)` by the superuser;
the directory gets nid 1. -/
def stRootA : MStorSt :=
  match mstor_do_path_operation st0 uSuper (MOp.mkdirs 0o755 100) [[97]] with
  | Except.ok m => m
  | Except.error _ => st0

/-- `st0` after `creat("/f", mode 0644, ctime 200)` by the superuser; the
file gets nid 1. -/
def stRootF : MStorSt :=
  match mstor_do_path_operation st0 uSuper (MOp.creat 0o644 200) [[102]] with
  | Except.ok m => m
  | Except.error _ => st0

/-- `stRootF` after `chunkalloc(nid 1, off 0)`: the first allocation (the
create path leaves `next_cid` at its `calloc` value 0, so the first cid
is 0). -/
def stChunk0 : MStorSt :=
  match mstor_do_chunkalloc stRootF false uSuper 1 0 with
  | Except.ok r => r.1
  | Except.error _ => stRootF

/-- `stChunk0` after a second `chunkalloc(nid 1, off 0)` at the same
offset. -/
def stChunk1 : MStorSt :=
  match mstor_do_chunkalloc stChunk0 false uSuper 1 0 with
  | Except.ok r => r.1
  | Except.error _ => stChunk0

/-- `st0` after `creat("/t", mode 0, ctime 300)` by uid 5: a target file
owned by uid 5, gid 5, with no permission bit set at all. -/
def stRootT : MStorSt :=
  match mstor_do_path_operation st0 ⟨5, 5, []⟩ (MOp.creat 0 300) [[116]] with
  | Except.ok m => m
  | Except.error _ => st0

/-! # Theorems -/

/-! ## The walker on fully existing paths -/

/-- When every component of the path resolves (`walkChain` succeeds), the
walker performs no write and ends in the terminal dispatch on the reached
node, whatever the operation. -/
theorem mstor_walk_of_chain (u : RUser) (op : MOp) (comps : List (List Nat)) :
    ∀ (m : MStorSt) (cp : Bool) (pnode cnode : MNode) (pcomp : List Nat)
      (tgt : MNode),
      walkChain m.db cp u cnode comps = Except.ok tgt →
      ∃ pn pc, mstor_walk u op m cp pnode cnode pcomp comps
        = mstor_dispatch m cp u op pc pn tgt := by
  induction comps with
  | nil =>
    intro m cp pnode cnode pcomp tgt h
    refine ⟨pnode, pcomp, ?_⟩
    simp only [walkChain] at h
    cases h
    rfl
  | cons c rest ih =>
    intro m cp pnode cnode pcomp tgt h
    simp only [walkChain] at h
    cases hf : mstor_fetch_child m.db cp u c cnode with
    | ok cn =>
      rw [hf] at h
      simpa [mstor_walk, hf] using ih m cp cnode cn c tgt h
    | error e =>
      rw [hf] at h
      cases h


/-! ## Byte-codec lemmas -/

theorem unpackBe_foldl (l : List Nat) : ∀ acc : Nat,
    l.foldl (fun a b => a * 256 + b) acc = acc * 256 ^ l.length + unpackBe l := by
  induction l with
  | nil => intro acc; simp [unpackBe]
  | cons b t ih =>
    intro acc
    have h1 : unpackBe (b :: t) = b * 256 ^ t.length + unpackBe t := by
      show (b :: t).foldl (fun a b => a * 256 + b) 0
        = b * 256 ^ t.length + unpackBe t
      simp only [List.foldl_cons]
      rw [ih (0 * 256 + b)]
      ring
    simp only [List.foldl_cons]
    rw [ih (acc * 256 + b), h1]
    simp [List.length_cons, pow_succ]
    ring

theorem unpackBe_cons (b : Nat) (t : List Nat) :
    unpackBe (b :: t) = b * 256 ^ t.length + unpackBe t := by
  show (b :: t).foldl (fun a b => a * 256 + b) 0 = _
  simp only [List.foldl_cons]
  rw [unpackBe_foldl t (0 * 256 + b)]
  ring

theorem unpackBe_append (l1 l2 : List Nat) :
    unpackBe (l1 ++ l2) = unpackBe l1 * 256 ^ l2.length + unpackBe l2 := by
  show (l1 ++ l2).foldl (fun a b => a * 256 + b) 0 = _
  rw [List.foldl_append, unpackBe_foldl l2 (l1.foldl (fun a b => a * 256 + b) 0)]
  rfl

theorem unpackBe_lt (l : List Nat) (h : ∀ b ∈ l, b < 256) :
    unpackBe l < 256 ^ l.length := by
  induction l with
  | nil => simp [unpackBe]
  | cons b t ih =>
    rw [unpackBe_cons]
    have hb : b < 256 := h b (List.mem_cons_self b t)
    have ht := ih (fun x hx => h x (List.mem_cons_of_mem b hx))
    calc b * 256 ^ t.length + unpackBe t
        < b * 256 ^ t.length + 256 ^ t.length := by omega
      _ = (b + 1) * 256 ^ t.length := by ring
      _ ≤ 256 * 256 ^ t.length := by
          exact Nat.mul_le_mul_right _ (by omega)
      _ = 256 ^ (b :: t).length := by rw [List.length_cons]; ring

theorem beBytes_length (w n : Nat) : (beBytes w n).length = w := by
  induction w generalizing n with
  | zero => rfl
  | succ w ih => simp [beBytes, ih]

theorem beBytes_bytes_lt (w n : Nat) : ∀ b ∈ beBytes w n, b < 256 := by
  induction w generalizing n with
  | zero => intro b hb; cases hb
  | succ w ih =>
    intro b hb
    simp only [beBytes, List.mem_append, List.mem_singleton] at hb
    rcases hb with hb | hb
    · exact ih (n / 256) b hb
    · omega

theorem unpackBe_beBytes (w n : Nat) (h : n < 256 ^ w) :
    unpackBe (beBytes w n) = n := by
  induction w generalizing n with
  | zero =>
    interval_cases n
    rfl
  | succ w ih =>
    have hdiv : n / 256 < 256 ^ w := by
      rw [Nat.div_lt_iff_lt_mul (by norm_num)]
      calc n < 256 ^ (w + 1) := h
        _ = 256 ^ w * 256 := by ring
    show unpackBe (beBytes w (n / 256) ++ [n % 256]) = n
    rw [unpackBe_append, ih (n / 256) hdiv]
    show n / 256 * 256 ^ 1 + unpackBe [n % 256] = n
    have h1 : unpackBe [n % 256] = n % 256 := by
      rw [show [n % 256] = n % 256 :: ([] : List Nat) from rfl, unpackBe_cons]
      simp [unpackBe]
    rw [h1]
    omega

/-! ## Lemmas about the memcmp order -/

theorem keyLtB_nil_right (l : List Nat) : keyLtB l [] = false := by
  cases l <;> rfl

theorem keyLtB_cons_eq (a b : Nat) (as bs : List Nat) :
    keyLtB (a :: as) (b :: bs)
      = if a < b then true else if b < a then false else keyLtB as bs := rfl

theorem keyLtB_append_same (p a b : List Nat) :
    keyLtB (p ++ a) (p ++ b) = keyLtB a b := by
  induction p with
  | nil => rfl
  | cons x xs ih => simp [keyLtB_cons_eq, ih]

theorem keyLtB_append_left_self (p e : List Nat) : keyLtB (p ++ e) p = false := by
  induction p with
  | nil => cases e <;> rfl
  | cons x xs ih => simp [keyLtB_cons_eq, ih]

theorem keyLtB_self_append (p : List Nat) (e : List Nat) (b : Nat)
    (bs : List Nat) (he : e = b :: bs) : keyLtB p (p ++ e) = true := by
  have h := keyLtB_append_same p [] e
  rw [List.append_nil] at h
  rw [h, he]
  rfl

theorem keyLtB_extend (k : List Nat) : ∀ (p e : List Nat),
    keyLtB k p = true → keyLtB k (p ++ e) = true := by
  induction k with
  | nil =>
    intro p e h
    cases p with
    | nil => cases h
    | cons b bs => rfl
  | cons a as ih =>
    intro p e h
    cases p with
    | nil => cases h
    | cons b bs =>
      rw [List.cons_append, keyLtB_cons_eq]
      rw [keyLtB_cons_eq] at h
      by_cases h1 : a < b
      · simp [h1]
      · by_cases h2 : b < a
        · simp [h1, h2] at h
        · simp only [h1, h2, if_false] at h ⊢
          exact ih bs e h

theorem keyLtB_of_headD_lt (k : List Nat) (h : Nat) (t : List Nat)
    (hlt : k.headD 0 < h) : keyLtB k (h :: t) = true := by
  cases k with
  | nil => rfl
  | cons a as =>
    simp only [List.headD_cons] at hlt
    simp [keyLtB_cons_eq, hlt]

theorem keyLtB_cons_of_gt (a b : Nat) (as bs : List Nat) (h : b < a) :
    keyLtB (a :: as) (b :: bs) = false := by
  have h1 : ¬ a < b := by omega
  simp [keyLtB_cons_eq, h1, h]

theorem take_ne_of_keyLtB (k p : List Nat) (h : keyLtB k p = true) :
    k.take p.length ≠ p := by
  intro he
  have hk : k = p ++ k.drop p.length := by
    conv_lhs => rw [← List.take_append_drop p.length k]
    rw [he]
  rw [hk, keyLtB_append_left_self] at h
  cases h

theorem keyLtB_eq_decide (l1 : List Nat) : ∀ (l2 : List Nat),
    l1.length = l2.length → (∀ b ∈ l1, b < 256) → (∀ b ∈ l2, b < 256) →
    keyLtB l1 l2 = decide (unpackBe l1 < unpackBe l2) := by
  induction l1 with
  | nil =>
    intro l2 hlen h1 h2
    cases l2 with
    | nil => rfl
    | cons b bs => cases hlen
  | cons a as ih =>
    intro l2 hlen h1 h2
    cases l2 with
    | nil => cases hlen
    | cons b bs =>
      have hlen' : as.length = bs.length := by simpa using hlen
      rw [keyLtB_cons_eq, unpackBe_cons, unpackBe_cons, hlen']
      have hua := unpackBe_lt as (fun x hx => h1 x (List.mem_cons_of_mem a hx))
      have hub := unpackBe_lt bs (fun x hx => h2 x (List.mem_cons_of_mem b hx))
      rw [hlen'] at hua
      by_cases hab : a < b
      · have harith : a * 256 ^ bs.length + unpackBe as
            < b * 256 ^ bs.length + unpackBe bs := by
          calc a * 256 ^ bs.length + unpackBe as
              < a * 256 ^ bs.length + 256 ^ bs.length := by omega
            _ = (a + 1) * 256 ^ bs.length := by ring
            _ ≤ b * 256 ^ bs.length := Nat.mul_le_mul_right _ (by omega)
            _ ≤ b * 256 ^ bs.length + unpackBe bs := Nat.le_add_right _ _
        simp [hab, harith]
      · by_cases hba : b < a
        · have harith : b * 256 ^ bs.length + unpackBe bs
              < a * 256 ^ bs.length + unpackBe as := by
            calc b * 256 ^ bs.length + unpackBe bs
                < b * 256 ^ bs.length + 256 ^ bs.length := by omega
              _ = (b + 1) * 256 ^ bs.length := by ring
              _ ≤ a * 256 ^ bs.length := Nat.mul_le_mul_right _ (by omega)
              _ ≤ a * 256 ^ bs.length + unpackBe as := Nat.le_add_right _ _
          simp [hab, hba]
          omega
        · have hab' : a = b := by omega
          subst hab'
          simp only [lt_irrefl, if_false]
          rw [ih bs hlen'
            (fun x hx => h1 x (List.mem_cons_of_mem a hx))
            (fun x hx => h2 x (List.mem_cons_of_mem a hx))]
          simp

theorem keyLtB_beBytes (w a b : Nat) (ha : a < 256 ^ w) (hb : b < 256 ^ w) :
    keyLtB (beBytes w a) (beBytes w b) = decide (a < b) := by
  rw [keyLtB_eq_decide (beBytes w a) (beBytes w b)
    (by rw [beBytes_length, beBytes_length])
    (beBytes_bytes_lt w a) (beBytes_bytes_lt w b),
    unpackBe_beBytes w a ha, unpackBe_beBytes w b hb]

theorem be64_length (n : Nat) : (be64 n).length = 8 := beBytes_length 8 n

theorem unpackBe_be64 (n : Nat) (h : n < 2 ^ 64) : unpackBe (be64 n) = n :=
  unpackBe_beBytes 8 n (by simpa [show (256 : Nat) ^ 8 = 2 ^ 64 by norm_num]
    using h)

theorem keyLtB_be64 (a b : Nat) (ha : a < 2 ^ 64) (hb : b < 2 ^ 64) :
    keyLtB (be64 a) (be64 b) = decide (a < b) := by
  have h256 : (256 : Nat) ^ 8 = 2 ^ 64 := by norm_num
  exact keyLtB_beBytes 8 a b (by omega) (by omega)

/-! ## Iterator-position lemmas -/

theorem findIdx_append_false {α : Type} (p : α → Bool) (l1 l2 : List α)
    (h : ∀ x ∈ l1, p x = false) :
    (l1 ++ l2).findIdx p = l1.length + l2.findIdx p := by
  induction l1 with
  | nil => simp
  | cons a as ih =>
    rw [List.cons_append, List.findIdx_cons, h a (List.mem_cons_self a as)]
    have := ih (fun x hx => h x (List.mem_cons_of_mem a hx))
    simp only [cond_false, this, List.length_cons]
    omega

/-- A seek over entries all strictly below the target followed by an
entry that is not lands exactly on that entry. -/
theorem seekIdx_boundary (L1 : Store) (e2 : Entry) (L2 : Store)
    (target : List Nat) (h1 : ∀ e ∈ L1, keyLtB e.1 target = true)
    (h2 : keyLtB e2.1 target = false) :
    seekIdx (L1 ++ e2 :: L2) target = L1.length := by
  unfold seekIdx
  rw [findIdx_append_false _ L1 _ (fun e he => by simp [h1 e he])]
  rw [List.findIdx_cons]
  simp [h2]

/-- Seek-then-step-back at a block boundary: the iterator lands on the
last entry strictly below the target, and is invalid when there is none. -/
theorem prevPos_seek_boundary (S L1 : Store) (e2 : Entry) (L2 : Store)
    (target : List Nat) (hS : S = L1 ++ e2 :: L2)
    (h1 : ∀ e ∈ L1, keyLtB e.1 target = true)
    (h2 : keyLtB e2.1 target = false) :
    prevPos (seekPos S target)
      = if L1.length = 0 then none else some (L1.length - 1) := by
  subst hS
  unfold seekPos
  rw [seekIdx_boundary L1 e2 L2 target h1 h2]
  have hlt : L1.length < (L1 ++ e2 :: L2).length := by simp
  rw [if_pos hlt]
  cases hL : L1.length with
  | zero => simp [prevPos]
  | succ n => simp [prevPos]

theorem entryAt_concat_boundary (S L0 : Store) (eL : Entry) (rest : Store)
    (hS : S = (L0 ++ [eL]) ++ rest) :
    entryAt S L0.length = eL := by
  subst hS
  unfold entryAt
  rw [List.append_assoc,
    List.getD_append_right L0 ([eL] ++ rest) ([], []) L0.length (le_refl _)]
  simp

/-! ## chunkfind lemmas -/

theorem dropWhile_head_false {α : Type} (p : α → Bool) : ∀ (l : List α)
    (x : α) (xs : List α), l.dropWhile p = x :: xs → p x = false := by
  intro l
  induction l with
  | nil => intro x xs h; cases h
  | cons a t ih =>
    intro x xs h
    rw [List.dropWhile_cons] at h
    by_cases hp : p a = true
    · rw [if_pos hp] at h
      exact ih x xs h
    · rw [if_neg hp] at h
      cases h
      simpa using hp

theorem filter_le_eq_takeWhile (e : Nat) : ∀ (l : List (Nat × Nat)),
    l.Pairwise (fun p q => p.1 < q.1) →
    l.filter (fun p => p.1 ≤ e) = l.takeWhile (fun p => p.1 ≤ e) := by
  intro l
  induction l with
  | nil => intro h; rfl
  | cons x t ih =>
    intro h
    rcases List.pairwise_cons.mp h with ⟨hx, ht⟩
    rw [List.filter_cons, List.takeWhile_cons]
    by_cases hxe : x.1 ≤ e
    · rw [if_pos (by simpa using hxe), if_pos (by simpa using hxe), ih ht]
    · rw [if_neg (by simpa using hxe), if_neg (by simpa using hxe)]
      rw [List.filter_eq_nil_iff.mpr]
      intro a ha
      have h2 := hx a ha
      simp only [decide_eq_true_eq]
      omega

theorem fKeyPfx_length (nid : Nat) : (fKeyPfx nid).length = 9 := by
  simp [fKeyPfx, be64_length]

theorem fKey_length (nid off : Nat) : (fKey nid off).length = 17 := by
  simp [fKey, fKeyPfx, be64_length]

theorem fKey_take9 (nid off : Nat) : (fKey nid off).take 9 = fKeyPfx nid := by
  show (fKeyPfx nid ++ be64 off).take 9 = fKeyPfx nid
  rw [show (9 : Nat) = (fKeyPfx nid).length from (fKeyPfx_length nid).symm]
  exact List.take_left _ _

theorem fKey_drop9 (nid off : Nat) : (fKey nid off).drop 9 = be64 off := by
  show (fKeyPfx nid ++ be64 off).drop 9 = be64 off
  rw [show (9 : Nat) = (fKeyPfx nid).length from (fKeyPfx_length nid).symm]
  exact List.drop_left _ _

theorem chunkfindLoop_spec (nid endOff maxC : Nat) (B : Store)
    (hB : ∀ e ∈ B, e.1.take 9 ≠ fKeyPfx nid) :
    ∀ (G : List (Nat × Nat)) (off0 cid0 : Nat) (acc : List (Nat × Nat)),
      (∀ p ∈ G, p.1 < 2 ^ 64 ∧ p.2 < 2 ^ 64) →
      cid0 < 2 ^ 64 →
      acc.length + (G.takeWhile (fun p => p.1 ≤ endOff)).length + 2 ≤ maxC →
      chunkfindLoop maxC endOff (fKeyPfx nid)
        (fKey nid off0, be64 cid0) off0 (fEnc nid G ++ B) acc
      = Except.ok (acc ++ (cid0, off0)
          :: (G.takeWhile (fun p => p.1 ≤ endOff)).map (fun p => (p.2, p.1)))
    := by
  intro G
  induction G with
  | nil =>
    intro off0 cid0 acc hG hcid hcap
    simp only [List.takeWhile_nil, List.length_nil] at hcap ⊢
    unfold chunkfindLoop
    rw [if_neg (by omega)]
    simp only [be64_length, ne_eq, not_true_eq_false, if_neg, if_false]
    rw [unpackBe_be64 cid0 hcid]
    show (match fEnc nid [] ++ B with
      | [] => Except.ok (acc ++ [(cid0, off0)])
      | (k, v) :: rest2 =>
        if k.length ≠ 17 ∨ k.take 9 ≠ fKeyPfx nid then
          Except.ok (acc ++ [(cid0, off0)])
        else
          if endOff < unpackBe (k.drop 9) then Except.ok (acc ++ [(cid0, off0)])
          else chunkfindLoop maxC endOff (fKeyPfx nid) (k, v)
            (unpackBe (k.drop 9)) rest2 (acc ++ [(cid0, off0)]))
      = Except.ok (acc ++ [(cid0, off0)])
    cases hBc : B with
    | nil => simp [fEnc]
    | cons b B' =>
      have hb := hB b (by rw [hBc]; exact List.mem_cons_self b B')
      simp only [fEnc, List.map_nil, List.nil_append]
      rw [if_pos (Or.inr hb)]
  | cons d G' ih =>
    intro off0 cid0 acc hG hcid hcap
    have hcap1 : ¬ (maxC ≤ acc.length + 1) := by
      have := hcap
      omega
    unfold chunkfindLoop
    rw [if_neg hcap1]
    simp only [be64_length, ne_eq, not_true_eq_false, if_neg, if_false]
    rw [unpackBe_be64 cid0 hcid]
    have hrest : fEnc nid (d :: G') ++ B
        = (fKey nid d.1, be64 d.2) :: (fEnc nid G' ++ B) := by
      simp [fEnc]
    rw [hrest]
    show (if (fKey nid d.1).length ≠ 17
          ∨ (fKey nid d.1).take 9 ≠ fKeyPfx nid then
        Except.ok (acc ++ [(cid0, off0)])
      else
        if endOff < unpackBe ((fKey nid d.1).drop 9) then
          Except.ok (acc ++ [(cid0, off0)])
        else chunkfindLoop maxC endOff (fKeyPfx nid)
          (fKey nid d.1, be64 d.2) (unpackBe ((fKey nid d.1).drop 9))
          (fEnc nid G' ++ B) (acc ++ [(cid0, off0)]))
      = _
    have hd := hG d (List.mem_cons_self d G')
    rw [if_neg (by simp [fKey_length, fKey_take9])]
    rw [fKey_drop9, unpackBe_be64 d.1 hd.1]
    by_cases hde : endOff < d.1
    · rw [if_pos hde]
      have htw : (d :: G').takeWhile (fun p => p.1 ≤ endOff) = [] := by
        rw [List.takeWhile_cons, if_neg (by simpa using (by omega : ¬ d.1 ≤ endOff))]
      rw [htw]
      simp
    · rw [if_neg hde]
      have htw : (d :: G').takeWhile (fun p => p.1 ≤ endOff)
          = d :: G'.takeWhile (fun p => p.1 ≤ endOff) := by
        rw [List.takeWhile_cons, if_pos (by simpa using (by omega : d.1 ≤ endOff))]
      have hih := ih d.1 d.2 (acc ++ [(cid0, off0)])
        (fun p hp => hG p (List.mem_cons_of_mem d hp)) hd.2
        (by rw [htw] at hcap; simp at hcap ⊢; omega)
      rw [hih, htw]
      simp

theorem mstor_chunkfind_impl_none (s : Store) (nid maxC start endOff : Nat)
    (h : prevPos (seekPos s (fKey nid ((start + 1) % 2 ^ 64))) = none) :
    mstor_chunkfind_impl s nid maxC start endOff = Except.ok [] := by
  unfold mstor_chunkfind_impl
  rw [h]

theorem mstor_chunkfind_impl_some (s : Store) (nid maxC start endOff i : Nat)
    (h : prevPos (seekPos s (fKey nid ((start + 1) % 2 ^ 64))) = some i) :
    mstor_chunkfind_impl s nid maxC start endOff
      = (if (entryAt s i).1.length ≠ 17
            ∨ (entryAt s i).1.take 9 ≠ fKeyPfx nid then Except.ok []
        else chunkfindLoop maxC endOff (fKeyPfx nid) (entryAt s i)
          (unpackBe ((entryAt s i).1.drop 9)) (s.drop (i + 1)) []) := by
  unfold mstor_chunkfind_impl
  rw [h]

/-! ## Recovery of the id counters on a block-shaped store -/

theorem mstor_load_next_nid_some (s : Store) (i : Nat)
    (h : prevPos (seekPos s (nKey MSTOR_NID_MAX)) = some i) :
    mstor_load_next_nid s
      = (if (entryAt s i).1.length ≠ 9 ∨ (entryAt s i).1.headD 0 ≠ 110 then
          Except.error (-EINVAL)
        else Except.ok (unpackBe ((entryAt s i).1.drop 1) + 1)) := by
  unfold mstor_load_next_nid
  rw [h]

theorem mstor_load_next_cid_some (s : Store) (i : Nat)
    (h : prevPos (seekPos s (hKey MSTOR_CID_MAX)) = some i) :
    mstor_load_next_cid s
      = (if (entryAt s i).1.length ≠ 9 ∨ (entryAt s i).1.headD 0 ≠ 104 then 1
        else unpackBe ((entryAt s i).1.drop 1) + 1) := by
  unfold mstor_load_next_cid
  rw [h]

theorem mstor_load_next_cid_none (s : Store)
    (h : prevPos (seekPos s (hKey MSTOR_CID_MAX)) = none) :
    mstor_load_next_cid s = 1 := by
  unfold mstor_load_next_cid
  rw [h]

theorem load_nid_blocks (Cb Fb : Store) (H N : List (Nat × List Nat))
    (vv : List Nat)
    (hCF : ∀ e ∈ Cb ++ Fb, e.1.headD 0 < 104)
    (hN : ∀ p ∈ N, p.1 < MSTOR_NID_MAX)
    (N0 : List (Nat × List Nat)) (pL : Nat × List Nat)
    (hN0 : N = N0 ++ [pL]) :
    mstor_load_next_nid (storeBlocks Cb Fb H N vv)
      = Except.ok (pL.1 + 1) := by
  have hMAXlt : MSTOR_NID_MAX < 2 ^ 64 := by norm_num [MSTOR_NID_MAX]
  have h1 : ∀ e ∈ Cb ++ Fb ++ hEnc H ++ nEnc N,
      keyLtB e.1 (nKey MSTOR_NID_MAX) = true := by
    intro e he
    simp only [List.append_assoc, List.mem_append] at he
    rcases he with he | he | he | he
    · exact keyLtB_of_headD_lt e.1 110 (be64 MSTOR_NID_MAX)
        (lt_trans (hCF e (List.mem_append_left _ he)) (by norm_num))
    · exact keyLtB_of_headD_lt e.1 110 (be64 MSTOR_NID_MAX)
        (lt_trans (hCF e (List.mem_append_right _ he)) (by norm_num))
    · rcases List.mem_map.mp he with ⟨q, hq, rfl⟩
      exact keyLtB_of_headD_lt _ 110 (be64 MSTOR_NID_MAX) (by norm_num [hKey])
    · rcases List.mem_map.mp he with ⟨p, hp, rfl⟩
      show keyLtB ([110] ++ be64 p.1) ([110] ++ be64 MSTOR_NID_MAX) = true
      rw [keyLtB_append_same,
        keyLtB_be64 p.1 MSTOR_NID_MAX (lt_trans (hN p hp) hMAXlt) hMAXlt]
      simp [hN p hp]
  have h2 : keyLtB vKey (nKey MSTOR_NID_MAX) = false := by decide
  have hshape : storeBlocks Cb Fb H N vv
      = (Cb ++ Fb ++ hEnc H ++ nEnc N) ++ (vKey, vv) :: [] := by
    simp [storeBlocks]
  have hprev := prevPos_seek_boundary (storeBlocks Cb Fb H N vv)
    (Cb ++ Fb ++ hEnc H ++ nEnc N) (vKey, vv) [] (nKey MSTOR_NID_MAX)
    hshape h1 h2
  have hlen : (Cb ++ Fb ++ hEnc H ++ nEnc N).length
      = (Cb ++ Fb ++ hEnc H ++ nEnc N0).length + 1 := by
    simp only [hN0, nEnc, List.map_append, List.length_append, List.length_map,
      List.length_cons, List.length_nil, List.length_singleton]
    omega
  rw [hlen] at hprev
  simp only [Nat.succ_ne_zero, if_false, Nat.add_sub_cancel] at hprev
  have hentry : entryAt (storeBlocks Cb Fb H N vv)
      ((Cb ++ Fb ++ hEnc H ++ nEnc N0).length) = (nKey pL.1, pL.2) := by
    refine entryAt_concat_boundary _ (Cb ++ Fb ++ hEnc H ++ nEnc N0)
      (nKey pL.1, pL.2) [(vKey, vv)] ?_
    simp [storeBlocks, hN0, nEnc, List.append_assoc]
  rw [mstor_load_next_nid_some _ _ hprev, hentry]
  have hklen : (nKey pL.1).length = 9 := by simp [nKey, be64_length]
  have hkhead : (nKey pL.1).headD 0 = 110 := rfl
  have hdrop : (nKey pL.1).drop 1 = be64 pL.1 := rfl
  simp only [hklen, hkhead, hdrop]
  rw [unpackBe_be64 pL.1 (lt_trans (hN pL (by simp [hN0])) hMAXlt)]
  simp

theorem load_cid_blocks_concat (Cb Fb : Store)
    (H0 N : List (Nat × List Nat)) (qL : Nat × List Nat) (vv : List Nat)
    (hCF : ∀ e ∈ Cb ++ Fb, e.1.headD 0 < 104)
    (hH : ∀ q ∈ H0 ++ [qL], q.1 < MSTOR_CID_MAX)
    (p0 : Nat × List Nat) (N' : List (Nat × List Nat)) (hNc : N = p0 :: N') :
    mstor_load_next_cid (storeBlocks Cb Fb (H0 ++ [qL]) N vv)
      = qL.1 + 1 := by
  have hMAXlt : MSTOR_CID_MAX < 2 ^ 64 := by norm_num [MSTOR_CID_MAX]
  have h1 : ∀ e ∈ Cb ++ Fb ++ hEnc (H0 ++ [qL]),
      keyLtB e.1 (hKey MSTOR_CID_MAX) = true := by
    intro e he
    simp only [List.append_assoc, List.mem_append] at he
    rcases he with he | he | he
    · exact keyLtB_of_headD_lt e.1 104 (be64 MSTOR_CID_MAX)
        (hCF e (List.mem_append_left _ he))
    · exact keyLtB_of_headD_lt e.1 104 (be64 MSTOR_CID_MAX)
        (hCF e (List.mem_append_right _ he))
    · rcases List.mem_map.mp he with ⟨q, hq, rfl⟩
      show keyLtB ([104] ++ be64 q.1) ([104] ++ be64 MSTOR_CID_MAX) = true
      rw [keyLtB_append_same,
        keyLtB_be64 q.1 MSTOR_CID_MAX (lt_trans (hH q hq) hMAXlt) hMAXlt]
      simp [hH q hq]
  have h2 : keyLtB (nKey p0.1) (hKey MSTOR_CID_MAX) = false :=
    keyLtB_cons_of_gt 110 104 (be64 p0.1) (be64 MSTOR_CID_MAX) (by norm_num)
  have hshape : storeBlocks Cb Fb (H0 ++ [qL]) N vv
      = (Cb ++ Fb ++ hEnc (H0 ++ [qL]))
        ++ (nKey p0.1, p0.2) :: (nEnc N' ++ [(vKey, vv)]) := by
    simp [storeBlocks, hNc, nEnc, List.append_assoc]
  have hprev := prevPos_seek_boundary _ _ _ _ (hKey MSTOR_CID_MAX)
    hshape h1 h2
  have hlen : (Cb ++ Fb ++ hEnc (H0 ++ [qL])).length
      = (Cb ++ Fb ++ hEnc H0).length + 1 := by
    simp only [hEnc, List.map_append, List.length_append, List.length_map,
      List.length_cons, List.length_nil]
    omega
  rw [hlen] at hprev
  simp only [Nat.succ_ne_zero, if_false, Nat.add_sub_cancel] at hprev
  have hentry : entryAt (storeBlocks Cb Fb (H0 ++ [qL]) N vv)
      ((Cb ++ Fb ++ hEnc H0).length) = (hKey qL.1, qL.2) := by
    refine entryAt_concat_boundary _ (Cb ++ Fb ++ hEnc H0)
      (hKey qL.1, qL.2) (nEnc N ++ [(vKey, vv)]) ?_
    simp [storeBlocks, hEnc, List.append_assoc]
  rw [mstor_load_next_cid_some _ _ hprev, hentry]
  have hklen : (hKey qL.1).length = 9 := by simp [hKey, be64_length]
  have hkhead : (hKey qL.1).headD 0 = 104 := rfl
  have hdrop : (hKey qL.1).drop 1 = be64 qL.1 := rfl
  simp only [hklen, hkhead, hdrop]
  rw [unpackBe_be64 qL.1 (lt_trans (hH qL (by simp)) hMAXlt)]
  simp

theorem load_cid_blocks_nil (Cb Fb : Store) (N : List (Nat × List Nat))
    (vv : List Nat)
    (hCF : ∀ e ∈ Cb ++ Fb, e.1.headD 0 < 104)
    (p0 : Nat × List Nat) (N' : List (Nat × List Nat)) (hNc : N = p0 :: N') :
    mstor_load_next_cid (storeBlocks Cb Fb [] N vv) = 1 := by
  have h1 : ∀ e ∈ Cb ++ Fb, keyLtB e.1 (hKey MSTOR_CID_MAX) = true := by
    intro e he
    exact keyLtB_of_headD_lt e.1 104 (be64 MSTOR_CID_MAX) (hCF e he)
  have h2 : keyLtB (nKey p0.1) (hKey MSTOR_CID_MAX) = false :=
    keyLtB_cons_of_gt 110 104 (be64 p0.1) (be64 MSTOR_CID_MAX) (by norm_num)
  have hshape : storeBlocks Cb Fb [] N vv
      = (Cb ++ Fb) ++ (nKey p0.1, p0.2) :: (nEnc N' ++ [(vKey, vv)]) := by
    simp [storeBlocks, hNc, nEnc, hEnc, List.append_assoc]
  have hprev := prevPos_seek_boundary _ _ _ _ (hKey MSTOR_CID_MAX)
    hshape h1 h2
  rcases List.eq_nil_or_concat (Cb ++ Fb) with hcf | ⟨E0, eL, hcf⟩
  · rw [hcf] at hprev
    simp only [List.length_nil, if_pos rfl] at hprev
    exact mstor_load_next_cid_none _ hprev
  · rw [List.concat_eq_append] at hcf
    have hlen : (Cb ++ Fb).length = E0.length + 1 := by simp [hcf]
    rw [hlen] at hprev
    simp only [Nat.succ_ne_zero, if_false, Nat.add_sub_cancel] at hprev
    have hentry : entryAt (storeBlocks Cb Fb [] N vv) E0.length = eL := by
      refine entryAt_concat_boundary _ E0 eL
        ((nKey p0.1, p0.2) :: (nEnc N' ++ [(vKey, vv)])) ?_
      rw [hshape, hcf]
    rw [mstor_load_next_cid_some _ _ hprev, hentry]
    have hhd : eL.1.headD 0 < 104 := by
      have := hCF eL (by rw [hcf]; exact List.mem_append_right E0 (by simp))
      exact this
    rw [if_pos (Or.inr (by omega))]

/-! ## Claim theorems -/

/-- C1: the claim says `mstor_mode_check` grants when the wanted bits are
present at the "other" position unconditionally, and at the "owner"
position when the caller's uid matches.  The code has those two swapped:
a world-readable file (mode 0004, owner uid 1000) denies READ to a
stranger (uid 2000, no groups) with `-EPERM`, while an owner-only
readable file (mode 0400) grants READ to the same stranger. -/
theorem C1_mode_check_owner_other_swapped :
    mstor_mode_check (encPayload 100 100 0 1000 1000 0o4) true
      ⟨2000, 2000, []⟩ MSTOR_PERM_READ = -EPERM ∧
    mstor_mode_check (encPayload 100 100 0 1000 1000 0o400) true
      ⟨2000, 2000, []⟩ MSTOR_PERM_READ = 0 := by decide

/-- C2: the claim says a non-superuser `rmdir` of the root path `"/"`
fails with `-EPERM` and leaves the store unchanged.  On the fresh store,
where the root node record is present, the code instead returns success
and the resulting store has lost the root node record (only the version
record survives): the dispatch passes `(cnode, pnode)` into
`mstor_do_rmdir`'s `(pnode, cnode)`, defeating the root check. -/
theorem C2_rmdir_root_succeeds_and_deletes_root :
    mstor_do_path_operation st0 ⟨1, 1, []⟩ (MOp.rmdir false) []
      = Except.ok ⟨[(vKey, vVal)], 1, 0⟩ ∧
    ldbGet st0.db (nKey MSTOR_ROOT_NID)
      = some (encPayload 100 100 0 0 0 MSTOR_ROOT_NID_INIT_MODE) := by decide

/-- C3: the claim says a non-recursive `rmdir` of an empty non-root
directory under a writable parent succeeds and deletes exactly the child
entry and the node record.  On the store holding just the empty directory
`/a` (nid 1) the superuser's non-recursive rmdir instead fails with
`-ENOTEMPTY`: the swapped dispatch makes the child scan run over the
parent's children, which always contain the directory being removed. -/
theorem C3_rmdir_empty_dir_returns_notempty :
    mstor_do_path_operation stRootA uSuper (MOp.rmdir false) [[97]]
      = Except.error (-ENOTEMPTY) ∧
    ldbGet stRootA.db (cKey 0 [97]) = some (be64 1) ∧
    stRootA.db.all (fun e => decide (e.1.take 9 ≠ cKeyPfx 1)) = true := by
  decide

/-- C4: the claim says `chunkalloc` at an offset already covered by a
chunk fails and writes nothing.  After a successful
`chunkalloc(nid 1, off 0)`, a second `chunkalloc(nid 1, off 0)` also
succeeds (returning the next cid) and overwrites the file-chunk record:
the duplicate probe calls `mstor_chunkfind_impl` with a capacity-1 array,
whose `num_cinfos + 1 >= max_cinfos` test always reports zero chunks. -/
theorem C4_chunkalloc_duplicate_offset_succeeds :
    mstor_do_chunkalloc stRootF false uSuper 1 0 = Except.ok (stChunk0, 0) ∧
    mstor_do_chunkalloc stChunk0 false uSuper 1 0 = Except.ok (stChunk1, 1) ∧
    ldbGet stChunk1.db (fKey 1 0) = some (leBytes 8 1) := by decide

/-- C5 counterexample: the claim says that when the file holds `k`
qualifying chunks and `max_cinfos ≥ k`, all `k` are returned.  The store
`stChunk0` holds exactly one qualifying chunk of file 1 for the range
`[0, 0]` (capacity 2 returns it), yet with `max_cinfos = 1 ≥ k = 1` the
function returns none of them. -/
theorem C5_cex_capacity_one_returns_nothing :
    mstor_chunkfind_impl stChunk0.db 1 1 0 0 = Except.ok [] ∧
    mstor_chunkfind_impl stChunk0.db 1 2 0 0 = Except.ok [(0, 0)] := by decide

/-- C5 amended: chunkfind seeks to `f|nid|start+1`, steps back once, and
when the landing key is still in the same file emits chunks in forward
order, stopping when a start-offset exceeds `end` or when
`num_cinfos + 1 >= max_cinfos`; when the file holds `k` qualifying chunks
and `max_cinfos ≥ k + 1`, all `k` are returned.  The store is the file's
records `F` (offsets strictly increasing) between any entries `A` sorting
below the file's key range and entries `B` sorting above it (`B` is
nonempty in every live store: node and version records follow). -/
theorem C5_amended_chunkfind_emits_qualifying (nid start endOff maxC : Nat) (A B : Store)
    (F : List (Nat × Nat))
    (hstart : start + 1 < 2 ^ 64)
    (hrange : start ≤ endOff)
    (hF : ∀ p ∈ F, p.1 < 2 ^ 64 ∧ p.2 < 2 ^ 64)
    (hsF : F.Pairwise (fun p q => p.1 < q.1))
    (hA : ∀ e ∈ A, keyLtB e.1 (fKeyPfx nid) = true)
    (hB : ∀ e ∈ B, keyLtB e.1 (fKey nid (start + 1)) = false ∧
      e.1.take 9 ≠ fKeyPfx nid)
    (b0 : Entry) (B' : Store) (hBc : B = b0 :: B')
    (hcap : (qualifyingChunks F start endOff).length + 1 ≤ maxC) :
    mstor_chunkfind_impl (A ++ fEnc nid F ++ B) nid maxC start endOff
      = Except.ok ((qualifyingChunks F start endOff).map
          (fun p => (p.2, p.1))) := by
  have hmod : (start + 1) % 2 ^ 64 = start + 1 := Nat.mod_eq_of_lt hstart
  have hTD : F = F.takeWhile (fun p => p.1 ≤ start)
      ++ F.dropWhile (fun p => p.1 ≤ start) :=
    (List.takeWhile_append_dropWhile _ _).symm
  have hTmem : ∀ p ∈ F.takeWhile (fun p => p.1 ≤ start), p ∈ F := by
    intro p hp
    rw [hTD]
    exact List.mem_append_left _ hp
  have hDmem : ∀ p ∈ F.dropWhile (fun p => p.1 ≤ start), p ∈ F := by
    intro p hp
    rw [hTD]
    exact List.mem_append_right _ hp
  have hpairTD := List.pairwise_append.mp (hTD ▸ hsF)
  -- every element of the dropped suffix lies strictly beyond start
  have hDgt : ∀ d ∈ F.dropWhile (fun p => p.1 ≤ start), start < d.1 := by
    cases hDc : F.dropWhile (fun p => p.1 ≤ start) with
    | nil => intro d hd; cases hd
    | cons d0 D'' =>
      intro d hd
      have hd0 : start < d0.1 := by
        have := dropWhile_head_false _ _ _ _ hDc
        simpa using this
      rcases List.mem_cons.mp hd with hdd | hdd
      · rw [hdd]; exact hd0
      · have hpD : (d0 :: D'').Pairwise (fun p q => p.1 < q.1) :=
          hDc ▸ hpairTD.2.1
        have := (List.pairwise_cons.mp hpD).1 d hdd
        omega
  -- the filter over offsets at most start is the takeWhile
  have hlows : F.filter (fun p => p.1 ≤ start)
      = F.takeWhile (fun p => p.1 ≤ start) := filter_le_eq_takeWhile start F hsF
  -- boundary decomposition of the suffix after the in-range block
  obtain ⟨e2, rest2, hsplit, h2⟩ : ∃ e2 rest2,
      fEnc nid (F.dropWhile (fun p => p.1 ≤ start)) ++ B = e2 :: rest2 ∧
      keyLtB e2.1 (fKey nid (start + 1)) = false := by
    cases hDc : F.dropWhile (fun p => p.1 ≤ start) with
    | nil =>
      refine ⟨b0, B', ?_, (hB b0 (by rw [hBc]; exact List.mem_cons_self _ _)).1⟩
      simp [fEnc, hBc]
    | cons d0 D'' =>
      refine ⟨(fKey nid d0.1, be64 d0.2), fEnc nid D'' ++ B, by simp [fEnc], ?_⟩
      have hd0F : d0 ∈ F := hDmem d0 (by rw [hDc]; exact List.mem_cons_self _ _)
      have hgt : start < d0.1 := hDgt d0 (by rw [hDc]; exact List.mem_cons_self _ _)
      show keyLtB (fKeyPfx nid ++ be64 d0.1) (fKeyPfx nid ++ be64 (start + 1))
        = false
      rw [keyLtB_append_same, keyLtB_be64 d0.1 (start + 1) (hF d0 hd0F).1 hstart]
      simp
      omega
  have h1 : ∀ e ∈ A ++ fEnc nid (F.takeWhile (fun p => p.1 ≤ start)),
      keyLtB e.1 (fKey nid (start + 1)) = true := by
    intro e he
    rcases List.mem_append.mp he with he | he
    · exact keyLtB_extend e.1 (fKeyPfx nid) (be64 (start + 1)) (hA e he)
    · rcases List.mem_map.mp he with ⟨p, hp, rfl⟩
      have hpF : p ∈ F := hTmem p hp
      have hple : p.1 ≤ start := by
        have := List.mem_takeWhile_imp hp
        simpa using this
      show keyLtB (fKeyPfx nid ++ be64 p.1) (fKeyPfx nid ++ be64 (start + 1))
        = true
      rw [keyLtB_append_same, keyLtB_be64 p.1 (start + 1) (hF p hpF).1 hstart]
      simp
      omega
  have hshape : A ++ fEnc nid F ++ B
      = (A ++ fEnc nid (F.takeWhile (fun p => p.1 ≤ start))) ++ e2 :: rest2 := by
    conv_lhs => rw [hTD]
    simp only [fEnc, List.map_append, List.append_assoc] at hsplit ⊢
    rw [← hsplit]
  have hprev := prevPos_seek_boundary _ _ _ _ (fKey nid (start + 1))
    hshape h1 h2
  rcases List.eq_nil_or_concat (F.takeWhile (fun p => p.1 ≤ start))
    with hT | ⟨T0, tL, hT⟩
  · -- no chunk covers start: the walk back lands outside the file (or
    -- nowhere), and the qualifying list is empty
    have hqual : qualifyingChunks F start endOff = [] := by
      unfold qualifyingChunks
      rw [hlows, hT]
      rfl
    rw [hqual]
    rcases List.eq_nil_or_concat A with hA0 | ⟨A0, aL, hA0⟩
    · have hL1 : (A ++ fEnc nid (F.takeWhile (fun p => p.1 ≤ start))).length
          = 0 := by
        rw [hA0, hT]
        simp [fEnc]
      rw [hL1, if_pos rfl] at hprev
      rw [mstor_chunkfind_impl_none _ _ _ _ _ (by rw [hmod]; exact hprev)]
      simp
    · rw [List.concat_eq_append] at hA0
      have hL1 : (A ++ fEnc nid (F.takeWhile (fun p => p.1 ≤ start))).length
          = A0.length + 1 := by
        rw [hA0, hT]
        simp [fEnc]
      rw [hL1] at hprev
      simp only [Nat.succ_ne_zero, if_false, Nat.add_sub_cancel] at hprev
      have hentry : entryAt (A ++ fEnc nid F ++ B) A0.length = aL := by
        refine entryAt_concat_boundary _ A0 aL (fEnc nid F ++ B) ?_
        rw [hA0]
        simp [List.append_assoc]
      rw [mstor_chunkfind_impl_some _ _ _ _ _ A0.length
        (by rw [hmod]; exact hprev), hentry]
      have haL := hA aL (by rw [hA0]; exact List.mem_append_right _ (by simp))
      have htake := take_ne_of_keyLtB aL.1 (fKeyPfx nid) haL
      rw [fKeyPfx_length] at htake
      rw [if_pos (Or.inr htake)]
      simp
  · -- tL is the chunk covering start
    rw [List.concat_eq_append] at hT
    have htLT : tL ∈ F.takeWhile (fun p => p.1 ≤ start) := by
      rw [hT]; exact List.mem_append_right _ (by simp)
    have htLF : tL ∈ F := hTmem tL htLT
    have htLle : tL.1 ≤ start := by
      have := List.mem_takeWhile_imp htLT
      simpa using this
    -- the qualifying chunks are tL followed by the in-range suffix
    have hqual : qualifyingChunks F start endOff
        = tL :: (F.dropWhile (fun p => p.1 ≤ start)).takeWhile
            (fun p => p.1 ≤ endOff) := by
      have hmatch : qualifyingChunks F start endOff
          = F.filter (fun p => tL.1 ≤ p.1 ∧ p.1 ≤ endOff) := by
        unfold qualifyingChunks
        rw [hlows, hT, List.getLast?_concat]
      rw [hmatch]
      conv_lhs => rw [hTD, hT]
      rw [List.filter_append, List.filter_append]
      have hf0 : T0.filter (fun p => tL.1 ≤ p.1 ∧ p.1 ≤ endOff) = [] := by
        rw [List.filter_eq_nil_iff]
        intro x hx
        have hpT : (T0 ++ [tL]).Pairwise (fun p q => p.1 < q.1) :=
          hT ▸ hpairTD.1
        rcases List.pairwise_append.mp hpT with ⟨hw1, hw2, hw3⟩
        have := hw3 x hx tL (by simp)
        simp
        omega
      have hf1 : [tL].filter (fun p => tL.1 ≤ p.1 ∧ p.1 ≤ endOff) = [tL] := by
        rw [List.filter_eq_self]
        intro a ha
        have : a = tL := by simpa using ha
        rw [this]
        simp
        omega
      have hf2 : (F.dropWhile (fun p => p.1 ≤ start)).filter
            (fun p => tL.1 ≤ p.1 ∧ p.1 ≤ endOff)
          = (F.dropWhile (fun p => p.1 ≤ start)).takeWhile
            (fun p => p.1 ≤ endOff) := by
        rw [List.filter_congr (fun d hd => ?_), filter_le_eq_takeWhile endOff _
          hpairTD.2.1]
        have := hDgt d hd
        simp
        omega
      rw [hf0, hf1, hf2]
      simp
    -- land on tL, then run the loop over the suffix
    rw [hT] at hprev
    have hlen : (A ++ fEnc nid (T0 ++ [tL])).length
        = (A ++ fEnc nid T0).length + 1 := by
      simp [fEnc]
      omega
    rw [hlen] at hprev
    simp only [Nat.succ_ne_zero, if_false, Nat.add_sub_cancel] at hprev
    have hentry : entryAt (A ++ fEnc nid F ++ B) ((A ++ fEnc nid T0).length)
        = (fKey nid tL.1, be64 tL.2) := by
      refine entryAt_concat_boundary _ (A ++ fEnc nid T0)
        (fKey nid tL.1, be64 tL.2)
        (fEnc nid (F.dropWhile (fun p => p.1 ≤ start)) ++ B) ?_
      conv_lhs => rw [hTD, hT]
      simp [fEnc, List.append_assoc]
    rw [mstor_chunkfind_impl_some _ _ _ _ _ ((A ++ fEnc nid T0).length)
      (by rw [hmod]; exact hprev), hentry]
    rw [if_neg (by simp [fKey_length, fKey_take9])]
    rw [fKey_drop9, unpackBe_be64 tL.1 (hF tL htLF).1]
    have hdrop : (A ++ fEnc nid F ++ B).drop ((A ++ fEnc nid T0).length + 1)
        = fEnc nid (F.dropWhile (fun p => p.1 ≤ start)) ++ B := by
      have hsh2 : A ++ fEnc nid F ++ B
          = (A ++ fEnc nid (T0 ++ [tL]))
            ++ (fEnc nid (F.dropWhile (fun p => p.1 ≤ start)) ++ B) := by
        conv_lhs => rw [hTD, hT]
        simp [fEnc, List.append_assoc]
      rw [hsh2]
      rw [show (A ++ fEnc nid T0).length + 1
        = (A ++ fEnc nid (T0 ++ [tL])).length by simp [fEnc]; omega]
      exact List.drop_left _ _
    rw [hdrop]
    have hloop := chunkfindLoop_spec nid endOff maxC B (fun e he => (hB e he).2)
      (F.dropWhile (fun p => p.1 ≤ start)) tL.1 tL.2 []
      (fun p hp => hF p (hDmem p hp)) (hF tL htLF).2
      (by
        rw [hqual] at hcap
        simp only [List.length_nil, List.length_cons] at hcap ⊢
        omega)
    rw [hloop, hqual]
    simp

/-- C5 amended witness: a store holding one chunk (offset 0) of file 1
between a child record and the h/n/v records; with capacity 2 the one
qualifying chunk of the range [0, 0] is returned. -/
theorem C5_amended_chunkfind_witness :
    mstor_chunkfind_impl ([(cKey 0 [102], be64 1)] ++ fEnc 1 [(0, 0)]
        ++ [(hKey 0, leBytes 4 123 ++ leBytes 4 456),
            (nKey 0, encPayload 100 100 0 0 0 MSTOR_ROOT_NID_INIT_MODE),
            (nKey 1, encPayload 200 200 0 0 0 0o644), (vKey, vVal)]) 1 2 0 0
      = Except.ok ((qualifyingChunks [(0, 0)] 0 0).map (fun p => (p.2, p.1))) :=
  C5_amended_chunkfind_emits_qualifying 1 0 0 2 [(cKey 0 [102], be64 1)]
    [(hKey 0, leBytes 4 123 ++ leBytes 4 456),
     (nKey 0, encPayload 100 100 0 0 0 MSTOR_ROOT_NID_INIT_MODE),
     (nKey 1, encPayload 200 200 0 0 0 0o644), (vKey, vVal)]
    [(0, 0)] (by decide) (by decide) (by decide) (by decide) (by decide)
    (by decide) (hKey 0, leBytes 4 123 ++ leBytes 4 456)
    [(nKey 0, encPayload 100 100 0 0 0 MSTOR_ROOT_NID_INIT_MODE),
     (nKey 1, encPayload 200 200 0 0 0 0o644), (vKey, vVal)]
    (by decide) (by decide)

/-- C6: the claim says the chunk-id value of a file-chunk record is
stored big-endian so that `chunkfind` reports the cid `chunkalloc`
returned.  The second allocation wrote cid 1, but the stored value is the
raw little-endian host bytes, so `chunkfind` decodes and reports
`0x0100000000000000`; the chunk-replicas payload is likewise raw host
bytes rather than the big-endian packing. -/
theorem C6_chunkalloc_cid_not_bigendian :
    mstor_chunkfind_impl stChunk1.db 1 2 0 0
      = Except.ok [(0x0100000000000000, 0)] ∧
    (0x0100000000000000 : Nat) ≠ 1 ∧
    ldbGet stChunk1.db (hKey 1) = some (leBytes 4 123 ++ leBytes 4 456) ∧
    leBytes 4 123 ≠ be32 123 := by decide

/-- C7: the claim says the effective `min_repl` / `man_repl` come from
the configuration record, so that a valid configured `man_repl = 5`
becomes the store's value.  `mstor_leveldb_init` instead feeds the
`calloc`-zeroed store fields to `get_valid_repl`, so every configuration
yields the defaults (2, 3) — even though `get_valid_repl` itself would
have accepted 5. -/
theorem C7_repl_settings_ignore_configuration :
    (∀ conf : MstorConf, mstor_leveldb_init_repl conf = (2, 3)) ∧
    get_valid_repl 5 3 = 5 := ⟨fun _ => rfl, by decide⟩

/-- C8: on every non-empty store in its sorted block shape (arbitrary
'c'/'f'-family entries, chunk-replicas records with strictly increasing
cids below the ceiling, node records with strictly increasing nids below
the ceiling — the root guarantees at least one — and the version record),
the recovered `next_nid` is one plus the largest stored nid, and the
recovered `next_cid` is one plus the largest stored cid, or 1 when no
'h' record exists; both recovered counters strictly exceed every
persisted id of their family, so ids allocated after recovery are fresh. -/
theorem C8_recovered_counters (Cb Fb : Store) (H N : List (Nat × List Nat))
    (vv : List Nat)
    (hCF : ∀ e ∈ Cb ++ Fb, e.1.headD 0 < 104)
    (hH : ∀ q ∈ H, q.1 < MSTOR_CID_MAX)
    (hN : ∀ p ∈ N, p.1 < MSTOR_NID_MAX)
    (hNne : N ≠ [])
    (hsN : N.Pairwise (fun a b => a.1 < b.1))
    (hsH : H.Pairwise (fun a b => a.1 < b.1)) :
    mstor_load_next_nid (storeBlocks Cb Fb H N vv)
      = Except.ok ((N.getLastD (0, [])).1 + 1) ∧
    (∀ p ∈ N, p.1 < (N.getLastD (0, [])).1 + 1) ∧
    mstor_load_next_cid (storeBlocks Cb Fb H N vv)
      = (if H.isEmpty then 1 else (H.getLastD (0, [])).1 + 1) ∧
    (∀ q ∈ H, q.1 < (H.getLastD (0, [])).1 + 1) := by
  rcases List.eq_nil_or_concat N with hN' | ⟨N0, pL, hN0⟩
  · exact absurd hN' hNne
  rw [List.concat_eq_append] at hN0
  cases N with
  | nil => exact absurd rfl hNne
  | cons p0 N' =>
  have hgL : ((p0 :: N').getLastD (0, [])).1 = pL.1 := by
    rw [hN0, List.getLastD_concat]
  refine ⟨?_, ?_, ?_, ?_⟩
  · rw [hgL]
    exact load_nid_blocks Cb Fb H (p0 :: N') vv hCF hN N0 pL hN0
  · intro p hp
    rw [hgL]
    rw [hN0] at hsN hp
    rcases List.pairwise_append.mp hsN with ⟨hp1, hp2, h12⟩
    rcases List.mem_append.mp hp with hp | hp
    · exact Nat.lt_succ_of_lt (h12 p hp pL (by simp))
    · have hppL : p = pL := by simpa using hp
      rw [hppL]
      exact Nat.lt_succ_self _
  · rcases List.eq_nil_or_concat H with hH' | ⟨H0, qL, hH0⟩
    · subst hH'
      simp only [List.isEmpty_nil, if_pos]
      exact load_cid_blocks_nil Cb Fb (p0 :: N') vv hCF p0 N' rfl
    · rw [List.concat_eq_append] at hH0
      subst hH0
      have hne : (H0 ++ [qL]).isEmpty = false := by simp
      rw [hne]
      simp only [Bool.false_eq_true, if_false, List.getLastD_concat]
      exact load_cid_blocks_concat Cb Fb H0 (p0 :: N') qL vv hCF hH p0 N' rfl
  · intro q hq
    rcases List.eq_nil_or_concat H with hH' | ⟨H0, qL, hH0⟩
    · subst hH'; cases hq
    · rw [List.concat_eq_append] at hH0
      subst hH0
      rw [List.getLastD_concat]
      rcases List.pairwise_append.mp hsH with ⟨hq1, hq2, h12⟩
      rcases List.mem_append.mp hq with hq | hq
      · exact Nat.lt_succ_of_lt (h12 q hq qL (by simp))
      · have hqqL : q = qL := by simpa using hq
        rw [hqqL]
        exact Nat.lt_succ_self _

/-- C8 witness: a store with a child record, one chunk record (cid 3) and
two node records (nids 0 and 5) recovers next_nid = 6 and next_cid = 4. -/
theorem C8_recovered_counters_witness :
    mstor_load_next_nid (storeBlocks [(cKey 0 [97], be64 1)] []
        [(3, leBytes 4 123)]
        [(0, encPayload 100 100 0 0 0 MSTOR_ROOT_NID_INIT_MODE),
         (5, encPayload 1 2 3 4 5 6)] vVal)
      = Except.ok (([(0, encPayload 100 100 0 0 0 MSTOR_ROOT_NID_INIT_MODE),
          (5, encPayload 1 2 3 4 5 6)].getLastD (0, [])).1 + 1) ∧
    (∀ p ∈ [(0, encPayload 100 100 0 0 0 MSTOR_ROOT_NID_INIT_MODE),
        (5, encPayload 1 2 3 4 5 6)],
      p.1 < (([(0, encPayload 100 100 0 0 0 MSTOR_ROOT_NID_INIT_MODE),
          (5, encPayload 1 2 3 4 5 6)].getLastD (0, [])).1 + 1)) ∧
    mstor_load_next_cid (storeBlocks [(cKey 0 [97], be64 1)] []
        [(3, leBytes 4 123)]
        [(0, encPayload 100 100 0 0 0 MSTOR_ROOT_NID_INIT_MODE),
         (5, encPayload 1 2 3 4 5 6)] vVal)
      = (if ([(3, leBytes 4 123)] : List (Nat × List Nat)).isEmpty then 1
        else (([(3, leBytes 4 123)] : List (Nat × List Nat)).getLastD
          (0, [])).1 + 1) ∧
    (∀ q ∈ ([(3, leBytes 4 123)] : List (Nat × List Nat)),
      q.1 < ((([(3, leBytes 4 123)] : List (Nat × List Nat)).getLastD
        (0, [])).1 + 1)) :=
  C8_recovered_counters [(cKey 0 [97], be64 1)] [] [(3, leBytes 4 123)]
    [(0, encPayload 100 100 0 0 0 MSTOR_ROOT_NID_INIT_MODE),
     (5, encPayload 1 2 3 4 5 6)] vVal
    (by decide) (by decide) (by decide) (by decide) (by decide) (by decide)

/-- C9: for every path all of whose components already exist and are
traversable by the request (the `walkChain` hypothesis), `mkdirs` returns
success and performs no write at all: the result carries the input state
unchanged.  Nothing constrains the reached terminal node — it may be a
regular file — and no AlreadyExists or NotDir error is possible. -/
theorem C9_mkdirs_existing_path_noop (m : MStorSt) (u : RUser)
    (mode ctime : Nat) (comps : List (List Nat)) (root tgt : MNode)
    (hroot : mstor_fetch_node m.db MSTOR_ROOT_NID = Except.ok root)
    (hchain : walkChain m.db (decide (u.uid ≠ RF_SUPERUSER_UID)) u root comps
      = Except.ok tgt) :
    mstor_do_path_operation m u (MOp.mkdirs mode ctime) comps
      = Except.ok m := by
  obtain ⟨pn, pc, hw⟩ :=
    mstor_walk_of_chain u (MOp.mkdirs mode ctime) comps m
      (decide (u.uid ≠ RF_SUPERUSER_UID)) ⟨0, none⟩ root [] tgt hchain
  unfold mstor_do_path_operation
  rw [hroot]
  exact hw.trans rfl

/-- C9 witness: on the store holding the regular file `/f`, a
non-superuser `mkdirs("/f")` (whose terminal component is that file)
returns success and the returned state is the input state. -/
theorem C9_mkdirs_existing_path_noop_witness :
    mstor_do_path_operation stRootF ⟨7, 7, []⟩ (MOp.mkdirs 0o700 999) [[102]]
      = Except.ok stRootF :=
  C9_mkdirs_existing_path_noop stRootF ⟨7, 7, []⟩ 0o700 999 [[102]]
    ⟨0, some (encPayload 100 100 0 0 0 MSTOR_ROOT_NID_INIT_MODE)⟩
    ⟨1, some (encPayload 200 200 0 0 0 0o644)⟩ (by decide) (by decide)

/-- C10: `chmod` and `utimes` check nothing about the target node itself.
For every request that can traverse to the node (the `walkChain`
hypothesis covers exactly the execute checks on the ancestors), `chmod`
succeeds and rewrites the mode (preserving `IS_DIR`), and `utimes`
succeeds and rewrites the non-sentinel times — with no hypothesis at all
on the target's uid, gid or mode, nor on the requesting user beyond
traversal. -/
theorem C10_chmod_utimes_no_target_check (m : MStorSt) (u : RUser)
    (mode patime pmtime : Nat) (comps : List (List Nat)) (root tgt : MNode)
    (pv : List Nat)
    (hroot : mstor_fetch_node m.db MSTOR_ROOT_NID = Except.ok root)
    (hchain : walkChain m.db (decide (u.uid ≠ RF_SUPERUSER_UID)) u root comps
      = Except.ok tgt)
    (hval : tgt.val = some pv) :
    mstor_do_path_operation m u (MOp.chmod mode) comps
      = Except.ok ⟨sput m.db (nKey tgt.nid)
          (setModeAndType pv (chmodNewType pv mode)), m.nextNid, m.nextCid⟩ ∧
    mstor_do_path_operation m u (MOp.utimes patime pmtime) comps
      = Except.ok ⟨sput m.db (nKey tgt.nid)
          (utimesNewPayload pv patime pmtime), m.nextNid, m.nextCid⟩ := by
  constructor
  · obtain ⟨pn, pc, hw⟩ :=
      mstor_walk_of_chain u (MOp.chmod mode) comps m
        (decide (u.uid ≠ RF_SUPERUSER_UID)) ⟨0, none⟩ root [] tgt hchain
    unfold mstor_do_path_operation
    rw [hroot]
    exact hw.trans
      (by simp only [mstor_dispatch, mstor_do_chmod, nodeVal, hval]; rfl)
  · obtain ⟨pn, pc, hw⟩ :=
      mstor_walk_of_chain u (MOp.utimes patime pmtime) comps m
        (decide (u.uid ≠ RF_SUPERUSER_UID)) ⟨0, none⟩ root [] tgt hchain
    unfold mstor_do_path_operation
    rw [hroot]
    exact hw.trans
      (by simp only [mstor_dispatch, mstor_do_utimes, nodeVal, hval]; rfl)

/-- C10 witness: the file `/t` has uid 5, gid 5 and mode 0000; the
requester uid 7, gid 7 neither owns it, matches its group, nor holds any
permission bit on it, yet both chmod and utimes succeed and rewrite it. -/
theorem C10_chmod_utimes_no_target_check_witness :
    mstor_do_path_operation stRootT ⟨7, 7, []⟩ (MOp.chmod 0o644) [[116]]
      = Except.ok ⟨sput stRootT.db (nKey 1)
          (setModeAndType (encPayload 300 300 0 5 5 0)
            (chmodNewType (encPayload 300 300 0 5 5 0) 0o644)),
          stRootT.nextNid, stRootT.nextCid⟩ ∧
    mstor_do_path_operation stRootT ⟨7, 7, []⟩ (MOp.utimes 111 222) [[116]]
      = Except.ok ⟨sput stRootT.db (nKey 1)
          (utimesNewPayload (encPayload 300 300 0 5 5 0) 111 222),
          stRootT.nextNid, stRootT.nextCid⟩ :=
  C10_chmod_utimes_no_target_check stRootT ⟨7, 7, []⟩ 0o644 111 222 [[116]]
    ⟨0, some (encPayload 100 100 0 0 0 MSTOR_ROOT_NID_INIT_MODE)⟩
    ⟨1, some (encPayload 300 300 0 5 5 0)⟩ (encPayload 300 300 0 5 5 0)
    (by decide) (by decide) (by decide)

end Mstor
